import Mathlib

/-!
Verification of the cell-based dipolar-field update (`dipole::internal::update_field`,
src/dipole/update.cpp) and of the OpenCL module startup (`vopencl::initialize`,
src/opencl/initialize.cpp) of the VAMPIRE repository.

Doubles are modelled as real numbers; the C global arrays are modelled as total
functions on natural-number indices (array reads in the source are in bounds by
the shape invariants of §7 of the spec).  The read-only globals consumed by
`update_field` are gathered in `DipoleInput`; the two output arrays it writes
are gathered in `FieldOut`.
-/

noncomputable section

/-- The constant `imuB = 1.0/9.274009994e-24` of update.cpp line 48
(reciprocal of the Bohr magneton). -/
def imuB : ℝ := 1.0 / 9.274009994e-24

/-- Read-only state consumed by `dipole::internal::update_field`:
the activation flag, the cell bookkeeping arrays of the `cells` /
`dipole::internal` namespaces, and the six interaction-tensor component
tables `rij_tensor_**[lc][j]` (indexed local cell × global cell). -/
structure DipoleInput where
  activated : Bool
  cells_num_local_cells : ℕ
  cells_num_cells : ℕ
  cell_id_array : ℕ → ℕ
  cells_num_atoms_in_cell : ℕ → ℕ
  cells_volume_array : ℕ → ℝ
  mag_array_x : ℕ → ℝ
  mag_array_y : ℕ → ℝ
  mag_array_z : ℕ → ℝ
  rij_tensor_xx : ℕ → ℕ → ℝ
  rij_tensor_xy : ℕ → ℕ → ℝ
  rij_tensor_xz : ℕ → ℕ → ℝ
  rij_tensor_yy : ℕ → ℕ → ℝ
  rij_tensor_yz : ℕ → ℕ → ℝ
  rij_tensor_zz : ℕ → ℕ → ℝ

/-- The two output arrays written by `update_field`:
`dipole::cells_field_array_{x,y,z}` (Total Dipolar Field) and
`dipole::cells_mu0Hd_field_array_{x,y,z}` (Demagnetizing Pseudo-Field). -/
structure FieldOut where
  cells_field_array_x : ℕ → ℝ
  cells_field_array_y : ℕ → ℝ
  cells_field_array_z : ℕ → ℝ
  cells_mu0Hd_field_array_x : ℕ → ℝ
  cells_mu0Hd_field_array_y : ℕ → ℝ
  cells_mu0Hd_field_array_z : ℕ → ℝ

/-- Self-demagnetisation factor of update.cpp line 58:
`8.0*M_PI/(3.0*cells_volume_array[i])`. -/
def self_demag (p : DipoleInput) (i : ℕ) : ℝ :=
  8.0 * Real.pi / (3.0 * p.cells_volume_array i)

/-- The x-component of the inner pairwise loop of update.cpp lines 76-92: the
sum over all global cells `j` with `cells_num_atoms_in_cell[j] > 0` of
`mx*rij_tensor_xx[lc][j] + my*rij_tensor_xy[lc][j] + mz*rij_tensor_xz[lc][j]`
with `m* = mag_array_*[j]*imuB`.  Lines 84 and 88 accumulate this same
expression into both output arrays. -/
def pairSumX (p : DipoleInput) (lc : ℕ) : ℝ :=
  ∑ j in Finset.range p.cells_num_cells,
    if 0 < p.cells_num_atoms_in_cell j then
      p.mag_array_x j * imuB * p.rij_tensor_xx lc j
        + p.mag_array_y j * imuB * p.rij_tensor_xy lc j
        + p.mag_array_z j * imuB * p.rij_tensor_xz lc j
    else 0

/-- y-component of the pairwise sum (update.cpp lines 85 and 89). -/
def pairSumY (p : DipoleInput) (lc : ℕ) : ℝ :=
  ∑ j in Finset.range p.cells_num_cells,
    if 0 < p.cells_num_atoms_in_cell j then
      p.mag_array_x j * imuB * p.rij_tensor_xy lc j
        + p.mag_array_y j * imuB * p.rij_tensor_yy lc j
        + p.mag_array_z j * imuB * p.rij_tensor_yz lc j
    else 0

/-- z-component of the pairwise sum (update.cpp lines 86 and 90). -/
def pairSumZ (p : DipoleInput) (lc : ℕ) : ℝ :=
  ∑ j in Finset.range p.cells_num_cells,
    if 0 < p.cells_num_atoms_in_cell j then
      p.mag_array_x j * imuB * p.rij_tensor_xz lc j
        + p.mag_array_y j * imuB * p.rij_tensor_yz lc j
        + p.mag_array_z j * imuB * p.rij_tensor_zz lc j
    else 0

/-- Final value stored into `cells_field_array_x[i]` for the outer iteration
`lc` (i = cell_id_array[lc]): the self term of line 67, plus the pairwise
accumulation of line 84, scaled by `9.274009994e-01` at line 95. -/
def fieldValX (p : DipoleInput) (lc : ℕ) : ℝ :=
  (self_demag p (p.cell_id_array lc) * (p.mag_array_x (p.cell_id_array lc) * imuB)
    + pairSumX p lc) * 9.274009994e-01

/-- Final value of `cells_field_array_y[i]` (lines 68, 85, 96). -/
def fieldValY (p : DipoleInput) (lc : ℕ) : ℝ :=
  (self_demag p (p.cell_id_array lc) * (p.mag_array_y (p.cell_id_array lc) * imuB)
    + pairSumY p lc) * 9.274009994e-01

/-- Final value of `cells_field_array_z[i]` (lines 69, 86, 97). -/
def fieldValZ (p : DipoleInput) (lc : ℕ) : ℝ :=
  (self_demag p (p.cell_id_array lc) * (p.mag_array_z (p.cell_id_array lc) * imuB)
    + pairSumZ p lc) * 9.274009994e-01

/-- Final value of `cells_mu0Hd_field_array_x[i]`: the `-0.5` self term of
line 71, the same pairwise accumulation (line 88), the same scaling
(line 100). -/
def hdValX (p : DipoleInput) (lc : ℕ) : ℝ :=
  (-0.5 * self_demag p (p.cell_id_array lc) * (p.mag_array_x (p.cell_id_array lc) * imuB)
    + pairSumX p lc) * 9.274009994e-01

/-- Final value of `cells_mu0Hd_field_array_y[i]` (lines 72, 89, 101). -/
def hdValY (p : DipoleInput) (lc : ℕ) : ℝ :=
  (-0.5 * self_demag p (p.cell_id_array lc) * (p.mag_array_y (p.cell_id_array lc) * imuB)
    + pairSumY p lc) * 9.274009994e-01

/-- Final value of `cells_mu0Hd_field_array_z[i]` (lines 73, 90, 102). -/
def hdValZ (p : DipoleInput) (lc : ℕ) : ℝ :=
  (-0.5 * self_demag p (p.cell_id_array lc) * (p.mag_array_z (p.cell_id_array lc) * imuB)
    + pairSumZ p lc) * 9.274009994e-01

/-- One iteration of the outer loop of update.cpp lines 51-104: with
`i = cell_id_array[lc]`, if `cells_num_atoms_in_cell[i] > 0` the six output
slots at index `i` are overwritten (the lines 67-73 initialisation uses `=`,
so the previous contents of the slot never matter); otherwise nothing is
written. -/
def update_cell (p : DipoleInput) (f : FieldOut) (lc : ℕ) : FieldOut :=
  if 0 < p.cells_num_atoms_in_cell (p.cell_id_array lc) then
    { cells_field_array_x :=
        Function.update f.cells_field_array_x (p.cell_id_array lc) (fieldValX p lc),
      cells_field_array_y :=
        Function.update f.cells_field_array_y (p.cell_id_array lc) (fieldValY p lc),
      cells_field_array_z :=
        Function.update f.cells_field_array_z (p.cell_id_array lc) (fieldValZ p lc),
      cells_mu0Hd_field_array_x :=
        Function.update f.cells_mu0Hd_field_array_x (p.cell_id_array lc) (hdValX p lc),
      cells_mu0Hd_field_array_y :=
        Function.update f.cells_mu0Hd_field_array_y (p.cell_id_array lc) (hdValY p lc),
      cells_mu0Hd_field_array_z :=
        Function.update f.cells_mu0Hd_field_array_z (p.cell_id_array lc) (hdValZ p lc) }
  else f

/-- `dipole::internal::update_field` (update.cpp lines 37-105): early return
when `dipole::activated` is false (line 39), otherwise the outer loop over
local cells `lc = 0 .. cells_num_local_cells-1`. -/
def update_field (p : DipoleInput) (f : FieldOut) : FieldOut :=
  if p.activated then (List.range p.cells_num_local_cells).foldl (update_cell p) f else f

/-- `p` with its three moment arrays replaced (used to compare two runs whose
inputs differ only in the magnetisation state). -/
@[simps] def withMag (p : DipoleInput) (mx my mz : ℕ → ℝ) : DipoleInput :=
  { p with mag_array_x := mx, mag_array_y := my, mag_array_z := mz }

/-- `p` with every cell's moment vector multiplied by the constant `k`. -/
@[simps] def scaleMag (k : ℝ) (p : DipoleInput) : DipoleInput :=
  { p with
    mag_array_x := fun j => k * p.mag_array_x j,
    mag_array_y := fun j => k * p.mag_array_y j,
    mag_array_z := fun j => k * p.mag_array_z j }

/-- Concrete one-cell input used by the witnesses: one local cell, one global
cell, occupancy 1, volume 1, moment (1,0,0), all tensor entries 0. -/
def pW : DipoleInput :=
  { activated := true,
    cells_num_local_cells := 1,
    cells_num_cells := 1,
    cell_id_array := fun l => l,
    cells_num_atoms_in_cell := fun _ => 1,
    cells_volume_array := fun _ => 1,
    mag_array_x := fun _ => 1,
    mag_array_y := fun _ => 0,
    mag_array_z := fun _ => 0,
    rij_tensor_xx := fun _ _ => 0,
    rij_tensor_xy := fun _ _ => 0,
    rij_tensor_xz := fun _ _ => 0,
    rij_tensor_yy := fun _ _ => 0,
    rij_tensor_yz := fun _ _ => 0,
    rij_tensor_zz := fun _ _ => 0 }

/-- Concrete output arrays used by the witnesses: all zero. -/
def fW : FieldOut :=
  { cells_field_array_x := fun _ => 0,
    cells_field_array_y := fun _ => 0,
    cells_field_array_z := fun _ => 0,
    cells_mu0Hd_field_array_x := fun _ => 0,
    cells_mu0Hd_field_array_y := fun _ => 0,
    cells_mu0Hd_field_array_z := fun _ => 0 }

/-- `pW` with the activation flag cleared. -/
def pOff : DipoleInput := { pW with activated := false }

/-- `pW` restricted to a single occupied cell: occupancy is 1 at cell 0 and 0
everywhere else. -/
def pS : DipoleInput :=
  { pW with cells_num_atoms_in_cell := fun j => if j = 0 then 1 else 0 }

/-- `pS` with a nonzero coincident-pair tensor coefficient
`rij_tensor_xx[0][0] = 1`. -/
def pCex : DipoleInput := { pS with rij_tensor_xx := fun _ _ => 1 }

/-- Moment arrays agreeing with `pS` on its occupied cell (cell 0) and
arbitrary elsewhere. -/
def mxW : ℕ → ℝ := fun j => if j = 0 then 1 else 42

/-- Second component of the modified moments (see `mxW`). -/
def myW : ℕ → ℝ := fun j => if j = 0 then 0 else 42

/-- Third component of the modified moments (see `mxW`). -/
def mzW : ℕ → ℝ := fun j => if j = 0 then 0 else 42

/-!
Model of `vopencl::initialize` (src/opencl/initialize.cpp, built with the
`OPENCL` flag defined).  The external OpenCL runtime is abstracted as an
environment: the list of platforms, each a list of devices (a device is
abstracted as a natural-number id); `::gpu::num_threads` as read at line 123;
and the result of `vcl::initialize_kernels()` (declared in init_kernels.hpp,
implemented outside these sources) as an environment boolean.  The seven other
sub-initialisers called at lines 134-140 all return `true` in this source
file, so the `success &= ...` chain reduces to the kernels result.
-/

/-- Abstraction of the external state read by `vopencl::initialize`. -/
structure OpenCLEnv where
  platforms : List (List ℕ)
  gpu_num_threads : Int
  kernels_ok : Bool

/-- The externally visible writes of a completed `vopencl::initialize` run:
the `vcl::stats::use_cpu` flag (line 69), the selected default device
(line 112), the global ND-range size (lines 123-130) and the returned
`success` value (lines 132-145). -/
structure InitEffects where
  use_cpu : Bool
  default_device : ℕ
  global_range : Int
  success : Bool
deriving DecidableEq

/-- Outcome of a run of `vopencl::initialize`: `fatal msg` models
`::err::vexit()` reached after logging `msg` (lines 76-82 and 103-109);
`oob` models the out-of-bounds read `devices[0][0]` at line 112 when the
first platform's device list is empty; `ok` is a normal return. -/
inductive InitOutcome where
  | fatal : String → InitOutcome
  | oob : InitOutcome
  | ok : InitEffects → InitOutcome
deriving DecidableEq

set_option linter.unusedVariables false in
/-- `vopencl::initialize(bool cpu_stats)` (initialize.cpp lines 48-147, with
`OPENCL` defined).  The first component of the result is the final value of
`vcl::stats::use_cpu`, set unconditionally to `true` at line 69 (the
assignment from the `cpu_stats` parameter at line 68 is commented out). -/
def vopenclInit (env : OpenCLEnv) (cpu_stats : Bool) : Bool × InitOutcome :=
  let use_cpu := true
  if env.platforms.length = 0 then
    (use_cpu, InitOutcome.fatal "Error: OpenCL is enabled but no platforms are available.")
  else if (env.platforms.map List.length).sum = 0 then
    (use_cpu, InitOutcome.fatal "Error: OpenCL is enabled but no suitable devices can be found.")
  else
    match env.platforms.head?.bind List.head? with
    | none => (use_cpu, InitOutcome.oob)
    | some dev =>
        (use_cpu,
          InitOutcome.ok
            { use_cpu := use_cpu,
              default_device := dev,
              global_range := if 0 < env.gpu_num_threads then env.gpu_num_threads else 4,
              success := env.kernels_ok })

/-- Concrete environment with no platforms at all. -/
def envNoPlat : OpenCLEnv := { platforms := [], gpu_num_threads := 0, kernels_ok := true }

/-- Concrete environment whose first platform reports zero devices while the
second platform has one device. -/
def envEmptyFirst : OpenCLEnv :=
  { platforms := [[], [7]], gpu_num_threads := 0, kernels_ok := true }

/-- A slot other than the one targeted by iteration `lc` is untouched by
`update_cell`. -/
theorem update_cell_other_slot (p : DipoleInput) (f : FieldOut) (lc i : ℕ)
    (h : i ≠ p.cell_id_array lc) :
    (update_cell p f lc).cells_field_array_x i = f.cells_field_array_x i
    ∧ (update_cell p f lc).cells_field_array_y i = f.cells_field_array_y i
    ∧ (update_cell p f lc).cells_field_array_z i = f.cells_field_array_z i
    ∧ (update_cell p f lc).cells_mu0Hd_field_array_x i = f.cells_mu0Hd_field_array_x i
    ∧ (update_cell p f lc).cells_mu0Hd_field_array_y i = f.cells_mu0Hd_field_array_y i
    ∧ (update_cell p f lc).cells_mu0Hd_field_array_z i = f.cells_mu0Hd_field_array_z i := by
  unfold update_cell
  split
  · exact ⟨Function.update_noteq h _ _, Function.update_noteq h _ _,
      Function.update_noteq h _ _, Function.update_noteq h _ _,
      Function.update_noteq h _ _, Function.update_noteq h _ _⟩
  · exact ⟨rfl, rfl, rfl, rfl, rfl, rfl⟩

/-- When the target of iteration `lc` is occupied, `update_cell` overwrites its
six slots with the per-cell final values. -/
theorem update_cell_target_slot (p : DipoleInput) (f : FieldOut) (lc : ℕ)
    (h : 0 < p.cells_num_atoms_in_cell (p.cell_id_array lc)) :
    (update_cell p f lc).cells_field_array_x (p.cell_id_array lc) = fieldValX p lc
    ∧ (update_cell p f lc).cells_field_array_y (p.cell_id_array lc) = fieldValY p lc
    ∧ (update_cell p f lc).cells_field_array_z (p.cell_id_array lc) = fieldValZ p lc
    ∧ (update_cell p f lc).cells_mu0Hd_field_array_x (p.cell_id_array lc) = hdValX p lc
    ∧ (update_cell p f lc).cells_mu0Hd_field_array_y (p.cell_id_array lc) = hdValY p lc
    ∧ (update_cell p f lc).cells_mu0Hd_field_array_z (p.cell_id_array lc) = hdValZ p lc := by
  unfold update_cell
  rw [if_pos h]
  exact ⟨Function.update_same _ _ _, Function.update_same _ _ _,
    Function.update_same _ _ _, Function.update_same _ _ _,
    Function.update_same _ _ _, Function.update_same _ _ _⟩

/-- After folding the outer loop over `0 .. n-1`, the slot of the occupied
local cell `l` holds exactly the per-cell final values, provided local cell
ids are pairwise distinct below `n` (the partition / no-duplication invariant
of the Local Cell Set). -/
theorem foldl_update_cell_slot (p : DipoleInput) (l : ℕ)
    (hocc : 0 < p.cells_num_atoms_in_cell (p.cell_id_array l)) :
    ∀ n, l < n →
      (∀ a b, a < n → b < n → p.cell_id_array a = p.cell_id_array b → a = b) →
      ∀ f : FieldOut,
        ((List.range n).foldl (update_cell p) f).cells_field_array_x (p.cell_id_array l)
            = fieldValX p l
        ∧ ((List.range n).foldl (update_cell p) f).cells_field_array_y (p.cell_id_array l)
            = fieldValY p l
        ∧ ((List.range n).foldl (update_cell p) f).cells_field_array_z (p.cell_id_array l)
            = fieldValZ p l
        ∧ ((List.range n).foldl (update_cell p) f).cells_mu0Hd_field_array_x (p.cell_id_array l)
            = hdValX p l
        ∧ ((List.range n).foldl (update_cell p) f).cells_mu0Hd_field_array_y (p.cell_id_array l)
            = hdValY p l
        ∧ ((List.range n).foldl (update_cell p) f).cells_mu0Hd_field_array_z (p.cell_id_array l)
            = hdValZ p l := by
  intro n
  induction n with
  | zero => intro h; exact absurd h (Nat.not_lt_zero l)
  | succ n ih =>
    intro hln hinj f
    rw [List.range_succ, List.foldl_append, List.foldl_cons, List.foldl_nil]
    rcases Nat.lt_succ_iff_lt_or_eq.mp hln with hlt | heq
    · have hne : p.cell_id_array l ≠ p.cell_id_array n := by
        intro hcontra
        have := hinj l n (Nat.lt_succ_of_lt hlt) (Nat.lt_succ_self n) hcontra
        omega
      obtain ⟨e1, e2, e3, e4, e5, e6⟩ :=
        ih hlt (fun a b ha hb hab =>
          hinj a b (Nat.lt_succ_of_lt ha) (Nat.lt_succ_of_lt hb) hab) f
      obtain ⟨u1, u2, u3, u4, u5, u6⟩ :=
        update_cell_other_slot p ((List.range n).foldl (update_cell p) f) n
          (p.cell_id_array l) hne
      exact ⟨u1.trans e1, u2.trans e2, u3.trans e3, u4.trans e4, u5.trans e5, u6.trans e6⟩
    · subst heq
      exact update_cell_target_slot p ((List.range l).foldl (update_cell p) f) l hocc

/-- Claim C1: for every locally-owned occupied cell, an activated
`update_field` writes `0.9274009994 × (self_demag·(m/muB) + S)` into the
Total Dipolar Field and `0.9274009994 × (−0.5·self_demag·(m/muB) + S)` into
the Demagnetizing Pseudo-Field, where `S` is the occupied-source pairwise
tensor contraction, with the constant applied identically to both arrays. -/
theorem update_field_occupied_local_cell (p : DipoleInput) (f : FieldOut) (l i : ℕ)
    (hact : p.activated = true)
    (hl : l < p.cells_num_local_cells)
    (hid : p.cell_id_array l = i)
    (hocc : 0 < p.cells_num_atoms_in_cell i)
    (hinj : ∀ a b, a < p.cells_num_local_cells → b < p.cells_num_local_cells →
      p.cell_id_array a = p.cell_id_array b → a = b) :
    (update_field p f).cells_field_array_x i
        = 9.274009994e-01 * (self_demag p i * (p.mag_array_x i * imuB) + pairSumX p l)
    ∧ (update_field p f).cells_field_array_y i
        = 9.274009994e-01 * (self_demag p i * (p.mag_array_y i * imuB) + pairSumY p l)
    ∧ (update_field p f).cells_field_array_z i
        = 9.274009994e-01 * (self_demag p i * (p.mag_array_z i * imuB) + pairSumZ p l)
    ∧ (update_field p f).cells_mu0Hd_field_array_x i
        = 9.274009994e-01 * (-0.5 * self_demag p i * (p.mag_array_x i * imuB) + pairSumX p l)
    ∧ (update_field p f).cells_mu0Hd_field_array_y i
        = 9.274009994e-01 * (-0.5 * self_demag p i * (p.mag_array_y i * imuB) + pairSumY p l)
    ∧ (update_field p f).cells_mu0Hd_field_array_z i
        = 9.274009994e-01 * (-0.5 * self_demag p i * (p.mag_array_z i * imuB) + pairSumZ p l) := by
  subst hid
  obtain ⟨e1, e2, e3, e4, e5, e6⟩ :=
    foldl_update_cell_slot p l hocc p.cells_num_local_cells hl hinj f
  have hfold : update_field p f = (List.range p.cells_num_local_cells).foldl (update_cell p) f := by
    simp [update_field, hact]
  rw [hfold, e1, e2, e3, e4, e5, e6, fieldValX, fieldValY, fieldValZ, hdValX, hdValY, hdValZ]
  refine ⟨by ring, by ring, by ring, by ring, by ring, by ring⟩

/-- Claim C6: both outputs accumulate the identical pairwise sum; they differ
only in the self-term, so Total minus Pseudo-Field is
`1.5 × 0.9274009994 × self_demag × (m/muB)` component-wise. -/
theorem update_field_self_term_difference (p : DipoleInput) (f : FieldOut) (l i : ℕ)
    (hact : p.activated = true)
    (hl : l < p.cells_num_local_cells)
    (hid : p.cell_id_array l = i)
    (hocc : 0 < p.cells_num_atoms_in_cell i)
    (hinj : ∀ a b, a < p.cells_num_local_cells → b < p.cells_num_local_cells →
      p.cell_id_array a = p.cell_id_array b → a = b) :
    (update_field p f).cells_field_array_x i - (update_field p f).cells_mu0Hd_field_array_x i
        = 1.5 * 9.274009994e-01 * self_demag p i * (p.mag_array_x i * imuB)
    ∧ (update_field p f).cells_field_array_y i - (update_field p f).cells_mu0Hd_field_array_y i
        = 1.5 * 9.274009994e-01 * self_demag p i * (p.mag_array_y i * imuB)
    ∧ (update_field p f).cells_field_array_z i - (update_field p f).cells_mu0Hd_field_array_z i
        = 1.5 * 9.274009994e-01 * self_demag p i * (p.mag_array_z i * imuB) := by
  subst hid
  obtain ⟨e1, e2, e3, e4, e5, e6⟩ :=
    foldl_update_cell_slot p l hocc p.cells_num_local_cells hl hinj f
  have hfold : update_field p f = (List.range p.cells_num_local_cells).foldl (update_cell p) f := by
    simp [update_field, hact]
  rw [hfold, e1, e2, e3, e4, e5, e6, fieldValX, fieldValY, fieldValZ, hdValX, hdValY, hdValZ]
  refine ⟨by ring, by ring, by ring⟩

/-- Slots whose global cell is unoccupied, or owned by no local index below
`n`, are untouched by the outer loop fold. -/
theorem foldl_update_cell_untouched (p : DipoleInput) (i : ℕ) :
    ∀ n, (∀ l, l < n → p.cells_num_atoms_in_cell i = 0 ∨ p.cell_id_array l ≠ i) →
      ∀ f : FieldOut,
        ((List.range n).foldl (update_cell p) f).cells_field_array_x i = f.cells_field_array_x i
        ∧ ((List.range n).foldl (update_cell p) f).cells_field_array_y i = f.cells_field_array_y i
        ∧ ((List.range n).foldl (update_cell p) f).cells_field_array_z i = f.cells_field_array_z i
        ∧ ((List.range n).foldl (update_cell p) f).cells_mu0Hd_field_array_x i
            = f.cells_mu0Hd_field_array_x i
        ∧ ((List.range n).foldl (update_cell p) f).cells_mu0Hd_field_array_y i
            = f.cells_mu0Hd_field_array_y i
        ∧ ((List.range n).foldl (update_cell p) f).cells_mu0Hd_field_array_z i
            = f.cells_mu0Hd_field_array_z i := by
  intro n
  induction n with
  | zero =>
    intro _ f
    rw [List.range_zero, List.foldl_nil]
    exact ⟨rfl, rfl, rfl, rfl, rfl, rfl⟩
  | succ n ih =>
    intro h f
    rw [List.range_succ, List.foldl_append, List.foldl_cons, List.foldl_nil]
    obtain ⟨e1, e2, e3, e4, e5, e6⟩ := ih (fun l hl => h l (Nat.lt_succ_of_lt hl)) f
    by_cases hcn : p.cell_id_array n = i
    · rcases h n (Nat.lt_succ_self n) with hocc0 | hne
      · have hno : ¬ 0 < p.cells_num_atoms_in_cell (p.cell_id_array n) := by
          rw [hcn, hocc0]
          omega
        unfold update_cell
        rw [if_neg hno]
        exact ⟨e1, e2, e3, e4, e5, e6⟩
      · exact absurd hcn hne
    · obtain ⟨u1, u2, u3, u4, u5, u6⟩ :=
        update_cell_other_slot p ((List.range n).foldl (update_cell p) f) n i
          (fun hh => hcn hh.symm)
      exact ⟨u1.trans e1, u2.trans e2, u3.trans e3, u4.trans e4, u5.trans e5, u6.trans e6⟩

/-- Claim C4: a global cell that is unoccupied or not in the Local Cell Set
is never written: both output arrays keep their pre-existing values at that
index (no zero-initialisation happens there). -/
theorem update_field_untouched_slots (p : DipoleInput) (f : FieldOut) (i : ℕ)
    (h : p.cells_num_atoms_in_cell i = 0
      ∨ ∀ l, l < p.cells_num_local_cells → p.cell_id_array l ≠ i) :
    (update_field p f).cells_field_array_x i = f.cells_field_array_x i
    ∧ (update_field p f).cells_field_array_y i = f.cells_field_array_y i
    ∧ (update_field p f).cells_field_array_z i = f.cells_field_array_z i
    ∧ (update_field p f).cells_mu0Hd_field_array_x i = f.cells_mu0Hd_field_array_x i
    ∧ (update_field p f).cells_mu0Hd_field_array_y i = f.cells_mu0Hd_field_array_y i
    ∧ (update_field p f).cells_mu0Hd_field_array_z i = f.cells_mu0Hd_field_array_z i := by
  cases hb : p.activated with
  | false => simp [update_field, hb]
  | true =>
    have hmain :=
      foldl_update_cell_untouched p i p.cells_num_local_cells
        (fun l hl => h.elim Or.inl (fun hall => Or.inr (hall l hl))) f
    simpa [update_field, hb] using hmain

/-- `self_demag` reads only the volume array, which `withMag` preserves. -/
@[simp] theorem self_demag_withMag (p : DipoleInput) (mx my mz : ℕ → ℝ) (i : ℕ) :
    self_demag (withMag p mx my mz) i = self_demag p i := rfl

/-- The x pairwise sum only reads moments of occupied source cells. -/
theorem pairSumX_congr_mag (p : DipoleInput) (mx my mz : ℕ → ℝ)
    (hx : ∀ j, 0 < p.cells_num_atoms_in_cell j → mx j = p.mag_array_x j)
    (hy : ∀ j, 0 < p.cells_num_atoms_in_cell j → my j = p.mag_array_y j)
    (hz : ∀ j, 0 < p.cells_num_atoms_in_cell j → mz j = p.mag_array_z j)
    (lc : ℕ) :
    pairSumX (withMag p mx my mz) lc = pairSumX p lc := by
  unfold pairSumX
  simp only [withMag_cells_num_cells, withMag_cells_num_atoms_in_cell,
    withMag_mag_array_x, withMag_mag_array_y, withMag_mag_array_z,
    withMag_rij_tensor_xx, withMag_rij_tensor_xy, withMag_rij_tensor_xz]
  refine Finset.sum_congr rfl ?_
  intro j _
  by_cases hj : 0 < p.cells_num_atoms_in_cell j
  · rw [if_pos hj, if_pos hj, hx j hj, hy j hj, hz j hj]
  · rw [if_neg hj, if_neg hj]

/-- The y pairwise sum only reads moments of occupied source cells. -/
theorem pairSumY_congr_mag (p : DipoleInput) (mx my mz : ℕ → ℝ)
    (hx : ∀ j, 0 < p.cells_num_atoms_in_cell j → mx j = p.mag_array_x j)
    (hy : ∀ j, 0 < p.cells_num_atoms_in_cell j → my j = p.mag_array_y j)
    (hz : ∀ j, 0 < p.cells_num_atoms_in_cell j → mz j = p.mag_array_z j)
    (lc : ℕ) :
    pairSumY (withMag p mx my mz) lc = pairSumY p lc := by
  unfold pairSumY
  simp only [withMag_cells_num_cells, withMag_cells_num_atoms_in_cell,
    withMag_mag_array_x, withMag_mag_array_y, withMag_mag_array_z,
    withMag_rij_tensor_xy, withMag_rij_tensor_yy, withMag_rij_tensor_yz]
  refine Finset.sum_congr rfl ?_
  intro j _
  by_cases hj : 0 < p.cells_num_atoms_in_cell j
  · rw [if_pos hj, if_pos hj, hx j hj, hy j hj, hz j hj]
  · rw [if_neg hj, if_neg hj]

/-- The z pairwise sum only reads moments of occupied source cells. -/
theorem pairSumZ_congr_mag (p : DipoleInput) (mx my mz : ℕ → ℝ)
    (hx : ∀ j, 0 < p.cells_num_atoms_in_cell j → mx j = p.mag_array_x j)
    (hy : ∀ j, 0 < p.cells_num_atoms_in_cell j → my j = p.mag_array_y j)
    (hz : ∀ j, 0 < p.cells_num_atoms_in_cell j → mz j = p.mag_array_z j)
    (lc : ℕ) :
    pairSumZ (withMag p mx my mz) lc = pairSumZ p lc := by
  unfold pairSumZ
  simp only [withMag_cells_num_cells, withMag_cells_num_atoms_in_cell,
    withMag_mag_array_x, withMag_mag_array_y, withMag_mag_array_z,
    withMag_rij_tensor_xz, withMag_rij_tensor_yz, withMag_rij_tensor_zz]
  refine Finset.sum_congr rfl ?_
  intro j _
  by_cases hj : 0 < p.cells_num_atoms_in_cell j
  · rw [if_pos hj, if_pos hj, hx j hj, hy j hj, hz j hj]
  · rw [if_neg hj, if_neg hj]

/-- On an occupied target the six per-cell final values ignore moments of
unoccupied cells. -/
theorem fieldVals_congr_mag (p : DipoleInput) (mx my mz : ℕ → ℝ)
    (hx : ∀ j, 0 < p.cells_num_atoms_in_cell j → mx j = p.mag_array_x j)
    (hy : ∀ j, 0 < p.cells_num_atoms_in_cell j → my j = p.mag_array_y j)
    (hz : ∀ j, 0 < p.cells_num_atoms_in_cell j → mz j = p.mag_array_z j)
    (lc : ℕ) (hocc : 0 < p.cells_num_atoms_in_cell (p.cell_id_array lc)) :
    fieldValX (withMag p mx my mz) lc = fieldValX p lc
    ∧ fieldValY (withMag p mx my mz) lc = fieldValY p lc
    ∧ fieldValZ (withMag p mx my mz) lc = fieldValZ p lc
    ∧ hdValX (withMag p mx my mz) lc = hdValX p lc
    ∧ hdValY (withMag p mx my mz) lc = hdValY p lc
    ∧ hdValZ (withMag p mx my mz) lc = hdValZ p lc := by
  refine ⟨?_, ?_, ?_, ?_, ?_, ?_⟩ <;>
    simp only [fieldValX, fieldValY, fieldValZ, hdValX, hdValY, hdValZ,
      self_demag_withMag, withMag_cell_id_array,
      withMag_mag_array_x, withMag_mag_array_y, withMag_mag_array_z,
      pairSumX_congr_mag p mx my mz hx hy hz,
      pairSumY_congr_mag p mx my mz hx hy hz,
      pairSumZ_congr_mag p mx my mz hx hy hz,
      hx _ hocc, hy _ hocc, hz _ hocc]

/-- `update_cell` ignores moments of unoccupied cells. -/
theorem update_cell_congr_mag (p : DipoleInput) (mx my mz : ℕ → ℝ)
    (hx : ∀ j, 0 < p.cells_num_atoms_in_cell j → mx j = p.mag_array_x j)
    (hy : ∀ j, 0 < p.cells_num_atoms_in_cell j → my j = p.mag_array_y j)
    (hz : ∀ j, 0 < p.cells_num_atoms_in_cell j → mz j = p.mag_array_z j) :
    update_cell (withMag p mx my mz) = update_cell p := by
  funext f lc
  unfold update_cell
  rw [withMag_cells_num_atoms_in_cell, withMag_cell_id_array]
  by_cases hocc : 0 < p.cells_num_atoms_in_cell (p.cell_id_array lc)
  · rw [if_pos hocc, if_pos hocc]
    obtain ⟨v1, v2, v3, v4, v5, v6⟩ := fieldVals_congr_mag p mx my mz hx hy hz lc hocc
    rw [v1, v2, v3, v4, v5, v6]
  · rw [if_neg hocc, if_neg hocc]

/-- Claim C5: two input states that differ only in the moment vectors of
cells with occupancy 0 produce identical output arrays: unoccupied cells
never contribute as sources. -/
theorem update_field_ignores_unoccupied_moments (p : DipoleInput)
    (mx my mz : ℕ → ℝ) (f : FieldOut)
    (hx : ∀ j, 0 < p.cells_num_atoms_in_cell j → mx j = p.mag_array_x j)
    (hy : ∀ j, 0 < p.cells_num_atoms_in_cell j → my j = p.mag_array_y j)
    (hz : ∀ j, 0 < p.cells_num_atoms_in_cell j → mz j = p.mag_array_z j) :
    update_field (withMag p mx my mz) f = update_field p f := by
  unfold update_field
  rw [withMag_activated, withMag_cells_num_local_cells,
    update_cell_congr_mag p mx my mz hx hy hz]

/-- `self_demag` reads only the volume array, which `scaleMag` preserves. -/
@[simp] theorem self_demag_scaleMag (k : ℝ) (p : DipoleInput) (i : ℕ) :
    self_demag (scaleMag k p) i = self_demag p i := rfl

/-- The x pairwise sum is linear in the moments. -/
theorem pairSumX_scaleMag (k : ℝ) (p : DipoleInput) (lc : ℕ) :
    pairSumX (scaleMag k p) lc = k * pairSumX p lc := by
  unfold pairSumX
  simp only [scaleMag_cells_num_cells, scaleMag_cells_num_atoms_in_cell,
    scaleMag_mag_array_x, scaleMag_mag_array_y, scaleMag_mag_array_z,
    scaleMag_rij_tensor_xx, scaleMag_rij_tensor_xy, scaleMag_rij_tensor_xz]
  rw [Finset.mul_sum]
  refine Finset.sum_congr rfl ?_
  intro j _
  by_cases hj : 0 < p.cells_num_atoms_in_cell j
  · rw [if_pos hj, if_pos hj]; ring
  · rw [if_neg hj, if_neg hj]; ring

/-- The y pairwise sum is linear in the moments. -/
theorem pairSumY_scaleMag (k : ℝ) (p : DipoleInput) (lc : ℕ) :
    pairSumY (scaleMag k p) lc = k * pairSumY p lc := by
  unfold pairSumY
  simp only [scaleMag_cells_num_cells, scaleMag_cells_num_atoms_in_cell,
    scaleMag_mag_array_x, scaleMag_mag_array_y, scaleMag_mag_array_z,
    scaleMag_rij_tensor_xy, scaleMag_rij_tensor_yy, scaleMag_rij_tensor_yz]
  rw [Finset.mul_sum]
  refine Finset.sum_congr rfl ?_
  intro j _
  by_cases hj : 0 < p.cells_num_atoms_in_cell j
  · rw [if_pos hj, if_pos hj]; ring
  · rw [if_neg hj, if_neg hj]; ring

/-- The z pairwise sum is linear in the moments. -/
theorem pairSumZ_scaleMag (k : ℝ) (p : DipoleInput) (lc : ℕ) :
    pairSumZ (scaleMag k p) lc = k * pairSumZ p lc := by
  unfold pairSumZ
  simp only [scaleMag_cells_num_cells, scaleMag_cells_num_atoms_in_cell,
    scaleMag_mag_array_x, scaleMag_mag_array_y, scaleMag_mag_array_z,
    scaleMag_rij_tensor_xz, scaleMag_rij_tensor_yz, scaleMag_rij_tensor_zz]
  rw [Finset.mul_sum]
  refine Finset.sum_congr rfl ?_
  intro j _
  by_cases hj : 0 < p.cells_num_atoms_in_cell j
  · rw [if_pos hj, if_pos hj]; ring
  · rw [if_neg hj, if_neg hj]; ring

/-- All six per-cell final values are linear in the moments. -/
theorem fieldVals_scaleMag (k : ℝ) (p : DipoleInput) (lc : ℕ) :
    fieldValX (scaleMag k p) lc = k * fieldValX p lc
    ∧ fieldValY (scaleMag k p) lc = k * fieldValY p lc
    ∧ fieldValZ (scaleMag k p) lc = k * fieldValZ p lc
    ∧ hdValX (scaleMag k p) lc = k * hdValX p lc
    ∧ hdValY (scaleMag k p) lc = k * hdValY p lc
    ∧ hdValZ (scaleMag k p) lc = k * hdValZ p lc := by
  refine ⟨?_, ?_, ?_, ?_, ?_, ?_⟩ <;>
    · simp only [fieldValX, fieldValY, fieldValZ, hdValX, hdValY, hdValZ,
        self_demag_scaleMag, scaleMag_cell_id_array,
        scaleMag_mag_array_x, scaleMag_mag_array_y, scaleMag_mag_array_z,
        pairSumX_scaleMag, pairSumY_scaleMag, pairSumZ_scaleMag]
      ring

/-- Parallel fold: at any slot that is occupied and owned by some local index
below `n`, the run with scaled moments holds exactly `k` times the value of
the original run, whatever the two initial output states were. -/
theorem foldl_update_cell_scale (p : DipoleInput) (k : ℝ) (i : ℕ)
    (hocc : 0 < p.cells_num_atoms_in_cell i) :
    ∀ n, (∃ l, l < n ∧ p.cell_id_array l = i) → ∀ f f2 : FieldOut,
      ((List.range n).foldl (update_cell (scaleMag k p)) f2).cells_field_array_x i
          = k * ((List.range n).foldl (update_cell p) f).cells_field_array_x i
      ∧ ((List.range n).foldl (update_cell (scaleMag k p)) f2).cells_field_array_y i
          = k * ((List.range n).foldl (update_cell p) f).cells_field_array_y i
      ∧ ((List.range n).foldl (update_cell (scaleMag k p)) f2).cells_field_array_z i
          = k * ((List.range n).foldl (update_cell p) f).cells_field_array_z i
      ∧ ((List.range n).foldl (update_cell (scaleMag k p)) f2).cells_mu0Hd_field_array_x i
          = k * ((List.range n).foldl (update_cell p) f).cells_mu0Hd_field_array_x i
      ∧ ((List.range n).foldl (update_cell (scaleMag k p)) f2).cells_mu0Hd_field_array_y i
          = k * ((List.range n).foldl (update_cell p) f).cells_mu0Hd_field_array_y i
      ∧ ((List.range n).foldl (update_cell (scaleMag k p)) f2).cells_mu0Hd_field_array_z i
          = k * ((List.range n).foldl (update_cell p) f).cells_mu0Hd_field_array_z i := by
  intro n
  induction n with
  | zero => rintro ⟨l, hl, -⟩; exact absurd hl (Nat.not_lt_zero l)
  | succ n ih =>
    rintro ⟨l, hl, hid⟩ f f2
    simp only [List.range_succ, List.foldl_append, List.foldl_cons, List.foldl_nil]
    by_cases hcn : p.cell_id_array n = i
    · have hoccn : 0 < p.cells_num_atoms_in_cell (p.cell_id_array n) := by
        rw [hcn]; exact hocc
      obtain ⟨t1, t2, t3, t4, t5, t6⟩ :=
        update_cell_target_slot p ((List.range n).foldl (update_cell p) f) n hoccn
      obtain ⟨s1, s2, s3, s4, s5, s6⟩ :=
        update_cell_target_slot (scaleMag k p)
          ((List.range n).foldl (update_cell (scaleMag k p)) f2) n hoccn
      obtain ⟨v1, v2, v3, v4, v5, v6⟩ := fieldVals_scaleMag k p n
      simp only [scaleMag_cell_id_array] at s1 s2 s3 s4 s5 s6
      rw [hcn] at s1 s2 s3 s4 s5 s6 t1 t2 t3 t4 t5 t6
      exact ⟨by rw [s1, v1, t1], by rw [s2, v2, t2], by rw [s3, v3, t3],
        by rw [s4, v4, t4], by rw [s5, v5, t5], by rw [s6, v6, t6]⟩
    · have hln : l < n := by
        rcases Nat.lt_succ_iff_lt_or_eq.mp hl with h | h
        · exact h
        · exact absurd (h ▸ hid) hcn
      obtain ⟨e1, e2, e3, e4, e5, e6⟩ := ih ⟨l, hln, hid⟩ f f2
      have hne : i ≠ p.cell_id_array n := fun hh => hcn hh.symm
      obtain ⟨u1, u2, u3, u4, u5, u6⟩ :=
        update_cell_other_slot p ((List.range n).foldl (update_cell p) f) n i hne
      obtain ⟨w1, w2, w3, w4, w5, w6⟩ :=
        update_cell_other_slot (scaleMag k p)
          ((List.range n).foldl (update_cell (scaleMag k p)) f2) n i hne
      exact ⟨by rw [w1, e1, u1], by rw [w2, e2, u2], by rw [w3, e3, u3],
        by rw [w4, e4, u4], by rw [w5, e5, u5], by rw [w6, e6, u6]⟩

/-- Claim C7: scaling every cell's moment vector by `k` scales every written
entry of both output field arrays by exactly `k`, for any pre-existing
contents of the two output states. -/
theorem update_field_linear_in_moments (p : DipoleInput) (k : ℝ) (f f2 : FieldOut) (i : ℕ)
    (hact : p.activated = true)
    (hocc : 0 < p.cells_num_atoms_in_cell i)
    (hwr : ∃ l, l < p.cells_num_local_cells ∧ p.cell_id_array l = i) :
    (update_field (scaleMag k p) f2).cells_field_array_x i
        = k * (update_field p f).cells_field_array_x i
    ∧ (update_field (scaleMag k p) f2).cells_field_array_y i
        = k * (update_field p f).cells_field_array_y i
    ∧ (update_field (scaleMag k p) f2).cells_field_array_z i
        = k * (update_field p f).cells_field_array_z i
    ∧ (update_field (scaleMag k p) f2).cells_mu0Hd_field_array_x i
        = k * (update_field p f).cells_mu0Hd_field_array_x i
    ∧ (update_field (scaleMag k p) f2).cells_mu0Hd_field_array_y i
        = k * (update_field p f).cells_mu0Hd_field_array_y i
    ∧ (update_field (scaleMag k p) f2).cells_mu0Hd_field_array_z i
        = k * (update_field p f).cells_mu0Hd_field_array_z i := by
  have h1 : update_field p f
      = (List.range p.cells_num_local_cells).foldl (update_cell p) f := by
    simp [update_field, hact]
  have h2 : update_field (scaleMag k p) f2
      = (List.range p.cells_num_local_cells).foldl (update_cell (scaleMag k p)) f2 := by
    simp [update_field, hact]
  rw [h1, h2]
  exact foldl_update_cell_scale p k i hocc p.cells_num_local_cells hwr f f2

/-- Claim C3: when the activation flag is false, `update_field` leaves both
output arrays completely unchanged at every index. -/
theorem update_field_noop_when_deactivated (p : DipoleInput) (f : FieldOut)
    (h : p.activated = false) : update_field p f = f := by
  simp [update_field, h]

/-- In a single-occupied-cell system with vanishing coincident-pair tensor
row, the x pairwise sum is zero. -/
theorem pairSumX_single_zero (p : DipoleInput) (l i : ℕ)
    (hsingle : ∀ j, j ≠ i → p.cells_num_atoms_in_cell j = 0)
    (hxx : p.rij_tensor_xx l i = 0) (hxy : p.rij_tensor_xy l i = 0)
    (hxz : p.rij_tensor_xz l i = 0) :
    pairSumX p l = 0 := by
  unfold pairSumX
  refine Finset.sum_eq_zero ?_
  intro j _
  by_cases hji : j = i
  · subst hji
    by_cases hj : 0 < p.cells_num_atoms_in_cell j
    · rw [if_pos hj, hxx, hxy, hxz]; ring
    · rw [if_neg hj]
  · simp [hsingle j hji]

/-- In a single-occupied-cell system with vanishing coincident-pair tensor
row, the y pairwise sum is zero. -/
theorem pairSumY_single_zero (p : DipoleInput) (l i : ℕ)
    (hsingle : ∀ j, j ≠ i → p.cells_num_atoms_in_cell j = 0)
    (hxy : p.rij_tensor_xy l i = 0) (hyy : p.rij_tensor_yy l i = 0)
    (hyz : p.rij_tensor_yz l i = 0) :
    pairSumY p l = 0 := by
  unfold pairSumY
  refine Finset.sum_eq_zero ?_
  intro j _
  by_cases hji : j = i
  · subst hji
    by_cases hj : 0 < p.cells_num_atoms_in_cell j
    · rw [if_pos hj, hxy, hyy, hyz]; ring
    · rw [if_neg hj]
  · simp [hsingle j hji]

/-- In a single-occupied-cell system with vanishing coincident-pair tensor
row, the z pairwise sum is zero. -/
theorem pairSumZ_single_zero (p : DipoleInput) (l i : ℕ)
    (hsingle : ∀ j, j ≠ i → p.cells_num_atoms_in_cell j = 0)
    (hxz : p.rij_tensor_xz l i = 0) (hyz : p.rij_tensor_yz l i = 0)
    (hzz : p.rij_tensor_zz l i = 0) :
    pairSumZ p l = 0 := by
  unfold pairSumZ
  refine Finset.sum_eq_zero ?_
  intro j _
  by_cases hji : j = i
  · subst hji
    by_cases hj : 0 < p.cells_num_atoms_in_cell j
    · rw [if_pos hj, hxz, hyz, hzz]; ring
    · rw [if_neg hj]
  · simp [hsingle j hji]

/-- Claim C2 counterexample: on a system with exactly one occupied cell but a
nonzero coincident-pair tensor coefficient (`rij_tensor_xx[0][0] = 1`), the
Total Dipolar Field is not `self_demag(V) × m × unit_scale`: the pairwise
loop of update.cpp lines 76-92 also runs for `j = i` and adds the tensor
contraction of the cell with itself. -/
theorem single_cell_no_pairwise_counterexample :
    ¬ ((update_field pCex fW).cells_field_array_x 0
        = self_demag pCex 0 * (pCex.mag_array_x 0 * imuB) * 9.274009994e-01) := by
  intro h
  have hocc : 0 < pCex.cells_num_atoms_in_cell (pCex.cell_id_array 0) := Nat.one_pos
  obtain ⟨e1, -, -, -, -, -⟩ :=
    foldl_update_cell_slot pCex 0 hocc 1 Nat.one_pos (fun a b ha hb _ => by omega) fW
  have hfold : (update_field pCex fW).cells_field_array_x 0 = fieldValX pCex 0 := e1
  have hps : pairSumX pCex 0 = imuB := by
    unfold pairSumX
    norm_num [pCex, pS, pW, Finset.sum_range_one]
  have hcid : pCex.cell_id_array 0 = 0 := rfl
  rw [hfold, fieldValX, hcid, hps] at h
  have hc : (9.274009994e-01 : ℝ) ≠ 0 := by norm_num
  have h2 := mul_right_cancel₀ hc h
  have h3 : imuB = 0 := by linarith
  rw [imuB] at h3
  norm_num at h3

/-- Claim C2 (amended): in a single-occupied-cell system whose coincident-pair
tensor coefficients vanish, the Total Dipolar Field of that cell is
`self_demag(V) × (m/muB) × unit_scale` with no pairwise contribution, and the
Demagnetizing Pseudo-Field is exactly `−0.5` times that value. -/
theorem update_field_single_occupied_cell (p : DipoleInput) (f : FieldOut) (l i : ℕ)
    (hact : p.activated = true)
    (hl : l < p.cells_num_local_cells)
    (hid : p.cell_id_array l = i)
    (hocc : 0 < p.cells_num_atoms_in_cell i)
    (hinj : ∀ a b, a < p.cells_num_local_cells → b < p.cells_num_local_cells →
      p.cell_id_array a = p.cell_id_array b → a = b)
    (hsingle : ∀ j, j ≠ i → p.cells_num_atoms_in_cell j = 0)
    (hxx : p.rij_tensor_xx l i = 0) (hxy : p.rij_tensor_xy l i = 0)
    (hxz : p.rij_tensor_xz l i = 0) (hyy : p.rij_tensor_yy l i = 0)
    (hyz : p.rij_tensor_yz l i = 0) (hzz : p.rij_tensor_zz l i = 0) :
    ((update_field p f).cells_field_array_x i
        = self_demag p i * (p.mag_array_x i * imuB) * 9.274009994e-01
      ∧ (update_field p f).cells_field_array_y i
        = self_demag p i * (p.mag_array_y i * imuB) * 9.274009994e-01
      ∧ (update_field p f).cells_field_array_z i
        = self_demag p i * (p.mag_array_z i * imuB) * 9.274009994e-01)
    ∧ ((update_field p f).cells_mu0Hd_field_array_x i
        = -0.5 * ((update_field p f).cells_field_array_x i)
      ∧ (update_field p f).cells_mu0Hd_field_array_y i
        = -0.5 * ((update_field p f).cells_field_array_y i)
      ∧ (update_field p f).cells_mu0Hd_field_array_z i
        = -0.5 * ((update_field p f).cells_field_array_z i)) := by
  subst hid
  obtain ⟨e1, e2, e3, e4, e5, e6⟩ :=
    foldl_update_cell_slot p l hocc p.cells_num_local_cells hl hinj f
  have hfold : update_field p f
      = (List.range p.cells_num_local_cells).foldl (update_cell p) f := by
    simp [update_field, hact]
  have hpx := pairSumX_single_zero p l (p.cell_id_array l) hsingle hxx hxy hxz
  have hpy := pairSumY_single_zero p l (p.cell_id_array l) hsingle hxy hyy hyz
  have hpz := pairSumZ_single_zero p l (p.cell_id_array l) hsingle hxz hyz hzz
  rw [hfold, e1, e2, e3, e4, e5, e6, fieldValX, fieldValY, fieldValZ, hdValX, hdValY, hdValZ,
    hpx, hpy, hpz]
  exact ⟨⟨by ring, by ring, by ring⟩, ⟨by ring, by ring, by ring⟩⟩

/-- Claim C8: with OpenCL enabled, if no platforms are available or no device
is found across all platforms, `vopencl::initialize` logs one of the two
diagnostics and terminates the process via `err::vexit`; it never returns in
a degraded mode. -/
theorem vopenclInit_fatal_without_resources (env : OpenCLEnv) (c : Bool)
    (h : env.platforms.length = 0 ∨ (env.platforms.map List.length).sum = 0) :
    (vopenclInit env c).2
        = InitOutcome.fatal "Error: OpenCL is enabled but no platforms are available."
    ∨ (vopenclInit env c).2
        = InitOutcome.fatal "Error: OpenCL is enabled but no suitable devices can be found." := by
  unfold vopenclInit
  by_cases h1 : env.platforms.length = 0
  · rw [if_pos h1]
    left
    rfl
  · rcases h with h | h
    · exact absurd h h1
    · rw [if_neg h1, if_pos h]
      right
      rfl

/-- Claim C9: `vopencl::initialize` ignores its `cpu_stats` argument:
the result and every modelled side effect are identical for both argument
values, and the `use_cpu` flag is set to true unconditionally. -/
theorem vopenclInit_ignores_cpu_stats (env : OpenCLEnv) (a b : Bool) :
    vopenclInit env a = vopenclInit env b ∧ (vopenclInit env a).1 = true := by
  refine ⟨rfl, ?_⟩
  unfold vopenclInit
  dsimp only
  split
  · rfl
  · split
    · rfl
    · split <;> rfl

/-- Claim C10: after the `ndevices > 0` check passes, `vopencl::initialize`
unconditionally reads `devices[0][0]`; whenever the first platform reports
zero devices (while later platforms supply the positive total), that read is
out of bounds. -/
theorem vopenclInit_oob_on_empty_first_platform (env : OpenCLEnv) (c : Bool)
    (h1 : env.platforms.head? = some [])
    (h2 : (env.platforms.map List.length).sum ≠ 0) :
    (vopenclInit env c).2 = InitOutcome.oob := by
  have hne : env.platforms.length ≠ 0 := by
    intro h0
    rw [List.length_eq_zero] at h0
    rw [h0] at h1
    simp at h1
  unfold vopenclInit
  dsimp only
  rw [if_neg hne, if_neg h2, h1]
  rfl

/-- Witness for C3: on the concrete deactivated input, the hypothesis holds
and `update_field` is the identity on the output arrays. -/
theorem update_field_noop_when_deactivated_witness :
    pOff.activated = false ∧ update_field pOff fW = fW :=
  ⟨rfl, update_field_noop_when_deactivated pOff fW rfl⟩

/-- Witness for C1: the one-cell input satisfies every hypothesis and the
occupied local cell receives the claimed value. -/
theorem update_field_occupied_local_cell_witness :
    pW.activated = true ∧ 0 < pW.cells_num_local_cells ∧ pW.cell_id_array 0 = 0
      ∧ 0 < pW.cells_num_atoms_in_cell 0
      ∧ (update_field pW fW).cells_field_array_x 0
          = 9.274009994e-01 * (self_demag pW 0 * (pW.mag_array_x 0 * imuB) + pairSumX pW 0) :=
  ⟨rfl, Nat.one_pos, rfl, Nat.one_pos,
    (update_field_occupied_local_cell pW fW 0 0 rfl Nat.one_pos rfl Nat.one_pos
      (fun _ _ _ _ h => h)).1⟩

/-- Witness for C6: on the one-cell input the difference of the two outputs
at the occupied cell is the claimed pure self-term. -/
theorem update_field_self_term_difference_witness :
    pW.activated = true ∧ 0 < pW.cells_num_local_cells ∧ 0 < pW.cells_num_atoms_in_cell 0
      ∧ (update_field pW fW).cells_field_array_x 0
          - (update_field pW fW).cells_mu0Hd_field_array_x 0
          = 1.5 * 9.274009994e-01 * self_demag pW 0 * (pW.mag_array_x 0 * imuB) :=
  ⟨rfl, Nat.one_pos, Nat.one_pos,
    (update_field_self_term_difference pW fW 0 0 rfl Nat.one_pos rfl Nat.one_pos
      (fun _ _ _ _ h => h)).1⟩

/-- Witness for C4: global cell 5 is not in the local cell set of the
one-cell input, and its output slot keeps its pre-existing value. -/
theorem update_field_untouched_slots_witness :
    (pW.cells_num_atoms_in_cell 5 = 0
      ∨ ∀ l, l < pW.cells_num_local_cells → pW.cell_id_array l ≠ 5)
    ∧ (update_field pW fW).cells_field_array_x 5 = fW.cells_field_array_x 5 := by
  have h : pW.cells_num_atoms_in_cell 5 = 0
      ∨ ∀ l, l < pW.cells_num_local_cells → pW.cell_id_array l ≠ 5 := by
    right
    intro l hl h5
    simp only [pW] at hl h5
    omega
  exact ⟨h, (update_field_untouched_slots pW fW 5 h).1⟩

/-- Witness for C5: changing the moments of the unoccupied cells of the
single-occupied-cell input (to 42) leaves the outputs identical. -/
theorem update_field_ignores_unoccupied_moments_witness :
    (∀ j, 0 < pS.cells_num_atoms_in_cell j → mxW j = pS.mag_array_x j)
    ∧ (∀ j, 0 < pS.cells_num_atoms_in_cell j → myW j = pS.mag_array_y j)
    ∧ (∀ j, 0 < pS.cells_num_atoms_in_cell j → mzW j = pS.mag_array_z j)
    ∧ update_field (withMag pS mxW myW mzW) fW = update_field pS fW := by
  have hx : ∀ j, 0 < pS.cells_num_atoms_in_cell j → mxW j = pS.mag_array_x j := by
    intro j hj
    by_cases h0 : j = 0
    · subst h0; rfl
    · simp [pS, pW, h0] at hj
  have hy : ∀ j, 0 < pS.cells_num_atoms_in_cell j → myW j = pS.mag_array_y j := by
    intro j hj
    by_cases h0 : j = 0
    · subst h0; rfl
    · simp [pS, pW, h0] at hj
  have hz : ∀ j, 0 < pS.cells_num_atoms_in_cell j → mzW j = pS.mag_array_z j := by
    intro j hj
    by_cases h0 : j = 0
    · subst h0; rfl
    · simp [pS, pW, h0] at hj
  exact ⟨hx, hy, hz, update_field_ignores_unoccupied_moments pS mxW myW mzW fW hx hy hz⟩

/-- Witness for C7: doubling the moment of the one-cell input doubles the
written total-field entry. -/
theorem update_field_linear_in_moments_witness :
    pW.activated = true ∧ 0 < pW.cells_num_atoms_in_cell 0
    ∧ (∃ l, l < pW.cells_num_local_cells ∧ pW.cell_id_array l = 0)
    ∧ (update_field (scaleMag 2 pW) fW).cells_field_array_x 0
        = 2 * (update_field pW fW).cells_field_array_x 0 :=
  ⟨rfl, Nat.one_pos, ⟨0, Nat.one_pos, rfl⟩,
    (update_field_linear_in_moments pW 2 fW fW 0 rfl Nat.one_pos ⟨0, Nat.one_pos, rfl⟩).1⟩

/-- Witness for the amended C2: the single-occupied-cell input with vanishing
tensor has the claimed self-demagnetisation output. -/
theorem update_field_single_occupied_cell_witness :
    pS.activated = true ∧ 0 < pS.cells_num_atoms_in_cell 0
    ∧ (∀ j, j ≠ 0 → pS.cells_num_atoms_in_cell j = 0)
    ∧ pS.rij_tensor_xx 0 0 = 0
    ∧ (update_field pS fW).cells_field_array_x 0
        = self_demag pS 0 * (pS.mag_array_x 0 * imuB) * 9.274009994e-01
    ∧ (update_field pS fW).cells_mu0Hd_field_array_x 0
        = -0.5 * ((update_field pS fW).cells_field_array_x 0) := by
  have hres :=
    update_field_single_occupied_cell pS fW 0 0 rfl Nat.one_pos rfl Nat.one_pos
      (fun _ _ _ _ h => h) (fun j hj => if_neg hj) rfl rfl rfl rfl rfl rfl
  exact ⟨rfl, Nat.one_pos, fun j hj => if_neg hj, rfl, hres.1.1, hres.2.1⟩

/-- Witness for C8: with an empty platform list the run is fatal with the
no-platforms diagnostic. -/
theorem vopenclInit_fatal_without_resources_witness :
    (envNoPlat.platforms.length = 0 ∨ (envNoPlat.platforms.map List.length).sum = 0)
    ∧ ((vopenclInit envNoPlat true).2
        = InitOutcome.fatal "Error: OpenCL is enabled but no platforms are available."
      ∨ (vopenclInit envNoPlat true).2
        = InitOutcome.fatal "Error: OpenCL is enabled but no suitable devices can be found.") :=
  ⟨Or.inl rfl, vopenclInit_fatal_without_resources envNoPlat true (Or.inl rfl)⟩

/-- Witness for C10: with `platforms = [[], [7]]` both guards pass
(one device in total) yet the `devices[0][0]` read is out of bounds. -/
theorem vopenclInit_oob_on_empty_first_platform_witness :
    envEmptyFirst.platforms.head? = some []
    ∧ (envEmptyFirst.platforms.map List.length).sum ≠ 0
    ∧ (vopenclInit envEmptyFirst true).2 = InitOutcome.oob :=
  ⟨rfl, by decide,
    vopenclInit_oob_on_empty_first_platform envEmptyFirst true rfl (by decide)⟩

end
